import Mathlib

/-!
Verification of the aluvm library compiler (src/library/compiler.rs).

The Rust code is generic over a trait `Instruction<LibId>`; instructions expose
a byte length (`code_byte_len`), an entry-point flag (`is_local_goto_target`)
and an optional, mutable 16-bit local-goto field (`local_goto_pos`).
`CompiledLib::compile` scans the sequence once, recording the byte offset of
every entry-point instruction in a routine table, then walks the sequence a
second time rewriting every local-goto field to the absolute offset found in
the table, failing with `CompilerError::InvalidRef` on an out-of-range index.
Finally it delegates to the external assembler `Lib::assemble` and the
content-derived identifier `Lib::lib_id`.

The embedding below mirrors that structure: `IsaOps` is the instruction
capability set (the trait), `scanFrom` is the first loop (lines 57-64),
`patchRun` is the second loop (lines 65-76) returning both the final state of
the instruction buffer (the loop mutates the slice in place) and the optional
error, and `compile` chains them with an abstract assembler.  The 16-bit
cursor additions `cursor += instr.code_byte_len()` are modelled with explicit
reduction modulo 2^16 (the wrap-around semantics of release-mode `u16`
addition; debug builds abort instead, so in neither mode does the cursor track
the exact sum past 65535).
-/

namespace Aluvm

/-- 2^16, the modulus of the 16-bit byte cursor and of all `u16` arithmetic in
the compiler. -/
def u16Mod : Nat := 65536

/-- The capability set of the Rust trait `Instruction<LibId>` as used by the
compiler: byte length, entry-point flag, and read/write access to the optional
local-goto field.  `local_goto_pos` is the read side of the Rust
`local_goto_pos() -> Option<&mut u16>`; `set_goto` is a write through that
mutable reference. -/
structure IsaOps (I : Type) where
  code_byte_len : I → Nat
  is_local_goto_target : I → Bool
  local_goto_pos : I → Option Nat
  set_goto : I → Nat → I

variable {I L E : Type}

/-- First pass (compiler.rs lines 57-64): walk the code, pushing the current
cursor for every entry-point instruction, advancing the `u16` cursor by each
instruction's byte length. -/
def scanFrom (ops : IsaOps I) (cursor : Nat) : List I → List Nat
  | [] => []
  | i :: rest =>
    (if ops.is_local_goto_target i then [cursor] else []) ++
      scanFrom ops ((cursor + ops.code_byte_len i) % u16Mod) rest

/-- The value of the first-pass cursor after walking the given instructions
(compiler.rs line 63, `cursor += instr.code_byte_len()` over a `u16`). -/
def scanOffset (ops : IsaOps I) (cursor : Nat) : List I → Nat
  | [] => cursor
  | i :: rest => scanOffset ops ((cursor + ops.code_byte_len i) % u16Mod) rest

/-- Payload of the only error the patching loop can produce
(`CompilerError::InvalidRef(instr, no, cursor, routines)`, compiler.rs
line 72): the offending instruction, its zero-based position, the cursor value
when it was reached, and the routine table. -/
structure RefError (I : Type) where
  instr : I
  no : Nat
  offset : Nat
  known : List Nat
deriving DecidableEq

/-- Second pass (compiler.rs lines 65-76): walk the code with position counter
`no` and a fresh `u16` cursor; an instruction without a local-goto field is
skipped; otherwise the stored routine index is looked up in the table - on
failure the loop stops, returning the buffer as mutated so far (the slice is
patched in place, so instructions from the failing one onwards keep their
original state); on success the goto field is overwritten with the table entry
and the cursor advances by the byte length of the now-patched instruction. -/
def patchRun (ops : IsaOps I) (routines : List Nat) :
    Nat → Nat → List I → List I × Option (RefError I)
  | _, _, [] => ([], none)
  | no, cursor, i :: rest =>
    match ops.local_goto_pos i with
    | none =>
      let r := patchRun ops routines (no + 1)
        ((cursor + ops.code_byte_len i) % u16Mod) rest
      (i :: r.1, r.2)
    | some g =>
      match routines[g]? with
      | none => (i :: rest, some ⟨i, no, cursor, routines⟩)
      | some pos =>
        let i' := ops.set_goto i pos
        let r := patchRun ops routines (no + 1)
          ((cursor + ops.code_byte_len i') % u16Mod) rest
        (i' :: r.1, r.2)

/-- The two-pass result on a whole program: the patched buffer and the
optional reference error, with the routine table produced by the first pass. -/
def patchResult (ops : IsaOps I) (code : List I) : List I × Option (RefError I) :=
  patchRun ops (scanFrom ops 0 code) 0 0 code

/-- The compiler error type (compiler.rs lines 31-43): either a wrapped
assembler error or an invalid local-goto reference. -/
inductive CompilerError (I E : Type) where
  | Assemble (err : E)
  | InvalidRef (instr : I) (no : Nat) (offset : Nat) (known : List Nat)
deriving DecidableEq

/-- The compiled library (compiler.rs lines 45-49): content-derived id,
assembled library, and the routine table. -/
structure CompiledLib (L Id : Type) where
  id : Id
  lib : L
  routines : List Nat
deriving DecidableEq

/-- `CompiledLib::compile` (compiler.rs lines 54-80): run the scan, run the
patching pass, propagate an `InvalidRef` failure, otherwise assemble the
patched code with the external assembler `a`, derive the id with `lid`, and
build the compiled library carrying the routine table. -/
def compile {Id : Type} (ops : IsaOps I) (a : List I → Except E L)
    (lid : L → Id) (code : List I) :
    Except (CompilerError I E) (CompiledLib L Id) :=
  let r := patchResult ops code
  match r.2 with
  | some e => .error (.InvalidRef e.instr e.no e.offset e.known)
  | none =>
    match a r.1 with
    | .error err => .error (.Assemble err)
    | .ok lib => .ok { id := lid lib, lib := lib, routines := scanFrom ops 0 code }

/-- `CompiledLib::routines_count` (compiler.rs line 82). -/
def CompiledLib.routines_count {Id : Type} (self : CompiledLib L Id) : Nat :=
  self.routines.length

/-- A library site (the Rust `LibSite::new(id, pos)` pair returned by
`routine`). -/
structure LibSite (Id : Type) where
  lib_id : Id
  offset : Nat
deriving DecidableEq

/-- `CompiledLib::routine` (compiler.rs lines 89-92): `self.routines[no]`
followed by `LibSite::new`.  The Rust indexing panics when `no` is out of
bounds; the panic branch is modelled as `none`. -/
def CompiledLib.routine {Id : Type} (self : CompiledLib L Id) (no : Nat) :
    Option (LibSite Id) :=
  match self.routines[no]? with
  | some pos => some ⟨self.id, pos⟩
  | none => none

/-- Sequence positions of the entry-point instructions, in order of
appearance: the p such that the instruction at p satisfies
`is_local_goto_target`. -/
def entryPositions (ops : IsaOps I) : List I → List Nat
  | [] => []
  | i :: rest =>
    (if ops.is_local_goto_target i then [0] else []) ++
      (entryPositions ops rest).map (· + 1)

/-- Exact (unwrapped) total byte length of a code fragment. -/
def sumLen (ops : IsaOps I) (code : List I) : Nat :=
  (code.map ops.code_byte_len).sum

/-- Position of the first instruction whose local-goto field stores an index
with no entry in the routine table (the instruction on which the patching
pass fails). -/
def firstBad (ops : IsaOps I) (routines : List Nat) : List I → Option Nat
  | [] => none
  | i :: rest =>
    match ops.local_goto_pos i with
    | some g =>
      if routines.length ≤ g then some 0
      else (firstBad ops routines rest).map (· + 1)
    | none => (firstBad ops routines rest).map (· + 1)

/-- The value of the second-pass cursor after walking the given instructions:
it advances by the byte length of the patched instruction (compiler.rs
line 75 runs after the goto field was overwritten on line 74) and stops
advancing at a failed lookup. -/
def patchOffset (ops : IsaOps I) (routines : List Nat) (cursor : Nat) :
    List I → Nat
  | [] => cursor
  | i :: rest =>
    match ops.local_goto_pos i with
    | none => patchOffset ops routines ((cursor + ops.code_byte_len i) % u16Mod) rest
    | some g =>
      match routines[g]? with
      | none => cursor
      | some pos =>
        patchOffset ops routines
          ((cursor + ops.code_byte_len (ops.set_goto i pos)) % u16Mod) rest

/-- A concrete instruction type instantiating the capability set with plain
fields: a byte length, the entry-point flag, and the optional local-goto
field. -/
structure TIsa where
  len : Nat
  entry : Bool
  goto : Option Nat
deriving DecidableEq

/-- The capability set of `TIsa`: writing through the goto reference changes
exactly the goto field. -/
def tOps : IsaOps TIsa where
  code_byte_len i := i.len
  is_local_goto_target i := i.entry
  local_goto_pos i := i.goto
  set_goto i v := { i with goto := some v }

/-- Add n to the reported position of a reference error: the patching pass
started at position counter n reports positions shifted by n relative to a
start at 0. -/
def shiftRef (n : Nat) (e : RefError I) : RefError I :=
  { e with no := n + e.no }

/-- A trivial assembler over the concrete instruction type: assembly always
succeeds and returns the patched code itself as the library. -/
def asmOk : List TIsa → Except Unit (List TIsa) :=
  fun code => .ok code

/-- A deterministic content-derived identifier for the trivial assembler. -/
def lidLen : List TIsa → Nat :=
  fun l => l.length

/-- The spec's concrete success scenario: an entry point of length 2 followed
by a non-entry instruction of length 3 whose goto field names routine 0. -/
def cGood : List TIsa := [⟨2, true, none⟩, ⟨3, false, some 0⟩]

/-- The compiled library produced from cGood by the trivial assembler. -/
def uGood : CompiledLib (List TIsa) Nat :=
  { id := 2, lib := [⟨2, true, none⟩, ⟨3, false, some 0⟩], routines := [0] }

/-- The spec's concrete failure scenario: a single non-entry instruction of
length 2 whose goto field names routine 0 while no entry points exist. -/
def cFail : List TIsa := [⟨2, false, some 0⟩]

/-- A self-referencing routine: the entry point at position 1 (byte offset 2)
carries a goto field naming its own routine index 0. -/
def cSelf : List TIsa := [⟨2, false, none⟩, ⟨3, true, some 0⟩]

/-- A program whose fourth instruction names routine index 9 while only two
routines exist; the instruction at position 2 names routine 0 (offset 1) and
is rewritten before the failure. -/
def cErr : List TIsa :=
  [⟨1, false, none⟩, ⟨2, true, none⟩, ⟨3, false, some 0⟩,
   ⟨4, false, some 9⟩, ⟨5, true, none⟩]

/-- Two instructions of byte length 40000 each: the total 80000 exceeds the
16-bit range, so the byte cursor wraps. -/
def cWrap : List TIsa := [⟨40000, false, none⟩, ⟨40000, false, none⟩]

/-- cWrap followed by an entry point: its recorded table offset is the wrapped
cursor 14464, not the exact byte position 80000. -/
def cOverflow : List TIsa :=
  [⟨40000, false, none⟩, ⟨40000, false, none⟩, ⟨1, true, none⟩]

/-- A goto-free single instruction. -/
def cPlain : List TIsa := [⟨1, false, none⟩]

attribute [simp] u16Mod

/-! ### Helper lemmas -/

theorem shiftRef_shiftRef (n m : Nat) (e : RefError I) :
    shiftRef n (shiftRef m e) = shiftRef (n + m) e := by
  simp [shiftRef, Nat.add_assoc]

/-- The patched buffer does not depend on the start value of the position
counter, and the reported error position is shifted by it. -/
theorem patchRun_shift (ops : IsaOps I) (tbl : List Nat) (n cur : Nat)
    (code : List I) :
    patchRun ops tbl n cur code =
      ((patchRun ops tbl 0 cur code).1,
        (patchRun ops tbl 0 cur code).2.map (shiftRef n)) := by
  induction code generalizing n cur with
  | nil => rfl
  | cons i rest ih =>
    cases hg : ops.local_goto_pos i with
    | none =>
      simp only [patchRun, hg]
      rw [ih (n + 1), ih (0 + 1)]
      cases (patchRun ops tbl 0 ((cur + ops.code_byte_len i) % u16Mod) rest).2 with
      | none => rfl
      | some e => simp [shiftRef_shiftRef, Nat.add_comm]
    | some g =>
      cases hl : tbl[g]? with
      | none => simp [patchRun, hg, hl, shiftRef]
      | some pos =>
        simp only [patchRun, hg, hl]
        rw [ih (n + 1), ih (0 + 1)]
        cases (patchRun ops tbl 0
            ((cur + ops.code_byte_len (ops.set_goto i pos)) % u16Mod) rest).2 with
        | none => rfl
        | some e => simp [shiftRef_shiftRef, Nat.add_comm]

/-- The routine table has one entry per entry-point instruction. -/
theorem scanFrom_length (ops : IsaOps I) (cur : Nat) (code : List I) :
    (scanFrom ops cur code).length =
      code.countP (fun i => ops.is_local_goto_target i) := by
  induction code generalizing cur with
  | nil => rfl
  | cons i rest ih =>
    simp only [scanFrom, List.countP_cons, List.length_append, ih]
    cases ht : ops.is_local_goto_target i <;> simp [Nat.add_comm]

/-- The k-th table entry is the cursor value reached at the position p of the
k-th entry-point instruction, that is the wrapped byte length of the
instructions before p. -/
theorem scan_entry (ops : IsaOps I) (code : List I) :
    ∀ (cur k p : Nat), (entryPositions ops code)[k]? = some p →
      (scanFrom ops cur code)[k]? = some (scanOffset ops cur (code.take p)) := by
  induction code with
  | nil => intro cur k p h; simp [entryPositions] at h
  | cons i rest ih =>
    intro cur k p h
    cases ht : ops.is_local_goto_target i with
    | true =>
      simp only [entryPositions, ht, if_true, List.singleton_append] at h
      cases k with
      | zero =>
        rw [List.getElem?_cons_zero] at h
        cases h
        simp [scanFrom, ht, scanOffset]
      | succ k =>
        simp only [List.getElem?_cons_succ, List.getElem?_map,
          Option.map_eq_some'] at h
        obtain ⟨q, hq, rfl⟩ := h
        simp only [scanFrom, ht, if_true, List.singleton_append,
          List.getElem?_cons_succ, List.take_succ_cons, scanOffset]
        exact ih ((cur + ops.code_byte_len i) % u16Mod) k q hq
    | false =>
      simp only [entryPositions, ht, Bool.false_eq_true, if_false,
        List.nil_append, List.getElem?_map, Option.map_eq_some'] at h
      obtain ⟨q, hq, rfl⟩ := h
      simp only [scanFrom, ht, Bool.false_eq_true, if_false, List.nil_append,
        List.take_succ_cons, scanOffset]
      exact ih ((cur + ops.code_byte_len i) % u16Mod) k q hq

/-- While the running total stays below 2^16 the wrapped cursor equals the
exact byte length sum. -/
theorem scanOffset_exact (ops : IsaOps I) (code : List I) :
    ∀ cur, cur + sumLen ops code < u16Mod →
      scanOffset ops cur code = cur + sumLen ops code := by
  induction code with
  | nil => intro cur h; simp [scanOffset, sumLen]
  | cons i rest ih =>
    intro cur h
    simp only [sumLen, List.map_cons, List.sum_cons] at h
    have hlt : cur + ops.code_byte_len i < u16Mod := by omega
    simp only [scanOffset, Nat.mod_eq_of_lt hlt]
    rw [ih (cur + ops.code_byte_len i) (by simp only [sumLen]; omega)]
    simp [sumLen]
    omega

theorem sumLen_take_le (ops : IsaOps I) (code : List I) :
    ∀ p, sumLen ops (code.take p) ≤ sumLen ops code := by
  induction code with
  | nil => intro p; simp [List.take_nil]
  | cons i rest ih =>
    intro p
    cases p with
    | zero => simp [sumLen]
    | succ p =>
      simp only [List.take_succ_cons, sumLen, List.map_cons, List.sum_cons]
      have := ih p
      simp only [sumLen] at this
      omega

/-- A code sequence without entry points produces an empty routine table. -/
theorem scanFrom_eq_nil (ops : IsaOps I) (code : List I)
    (h : ∀ i ∈ code, ops.is_local_goto_target i = false) :
    ∀ cur, scanFrom ops cur code = [] := by
  induction code with
  | nil => intro cur; rfl
  | cons i rest ih =>
    intro cur
    have ht := h i (List.mem_cons_self i rest)
    simp only [scanFrom, ht, if_false, List.nil_append]
    exact ih (fun j hj => h j (List.mem_cons_of_mem i hj)) _

theorem lt_length_of_getElem?_eq_some {α : Type} {l : List α} {n : Nat} {a : α}
    (h : l[n]? = some a) : n < l.length := by
  by_contra hc
  rw [List.getElem?_eq_none (Nat.le_of_not_lt hc)] at h
  cases h

theorem patchRun_cons_none_fst (ops : IsaOps I) (tbl : List Nat) (n cur : Nat)
    {i : I} (rest : List I) (hg : ops.local_goto_pos i = none) :
    (patchRun ops tbl n cur (i :: rest)).1 =
      i :: (patchRun ops tbl (n + 1)
        ((cur + ops.code_byte_len i) % u16Mod) rest).1 := by
  simp [patchRun, hg]

theorem patchRun_cons_none_snd (ops : IsaOps I) (tbl : List Nat) (n cur : Nat)
    {i : I} (rest : List I) (hg : ops.local_goto_pos i = none) :
    (patchRun ops tbl n cur (i :: rest)).2 =
      (patchRun ops tbl (n + 1)
        ((cur + ops.code_byte_len i) % u16Mod) rest).2 := by
  simp [patchRun, hg]

theorem patchRun_cons_miss_fst (ops : IsaOps I) (tbl : List Nat) (n cur : Nat)
    {i : I} {g : Nat} (rest : List I) (hg : ops.local_goto_pos i = some g)
    (hl : tbl[g]? = none) :
    (patchRun ops tbl n cur (i :: rest)).1 = i :: rest := by
  simp [patchRun, hg, hl]

theorem patchRun_cons_miss_snd (ops : IsaOps I) (tbl : List Nat) (n cur : Nat)
    {i : I} {g : Nat} (rest : List I) (hg : ops.local_goto_pos i = some g)
    (hl : tbl[g]? = none) :
    (patchRun ops tbl n cur (i :: rest)).2 = some ⟨i, n, cur, tbl⟩ := by
  simp [patchRun, hg, hl]

theorem patchRun_cons_hit_fst (ops : IsaOps I) (tbl : List Nat) (n cur : Nat)
    {i : I} {g pos : Nat} (rest : List I) (hg : ops.local_goto_pos i = some g)
    (hl : tbl[g]? = some pos) :
    (patchRun ops tbl n cur (i :: rest)).1 =
      ops.set_goto i pos :: (patchRun ops tbl (n + 1)
        ((cur + ops.code_byte_len (ops.set_goto i pos)) % u16Mod) rest).1 := by
  simp [patchRun, hg, hl]

theorem patchRun_cons_hit_snd (ops : IsaOps I) (tbl : List Nat) (n cur : Nat)
    {i : I} {g pos : Nat} (rest : List I) (hg : ops.local_goto_pos i = some g)
    (hl : tbl[g]? = some pos) :
    (patchRun ops tbl n cur (i :: rest)).2 =
      (patchRun ops tbl (n + 1)
        ((cur + ops.code_byte_len (ops.set_goto i pos)) % u16Mod) rest).2 := by
  simp [patchRun, hg, hl]

theorem patchRun_fst_shift (ops : IsaOps I) (tbl : List Nat) (n cur : Nat)
    (code : List I) :
    (patchRun ops tbl n cur code).1 = (patchRun ops tbl 0 cur code).1 := by
  rw [patchRun_shift]

theorem patchRun_snd_shift (ops : IsaOps I) (tbl : List Nat) (n cur : Nat)
    (code : List I) :
    (patchRun ops tbl n cur code).2 =
      (patchRun ops tbl 0 cur code).2.map (shiftRef n) := by
  rw [patchRun_shift]

/-- The patching pass does not change the number of instructions. -/
theorem patchRun_fst_length (ops : IsaOps I) (tbl : List Nat) (code : List I) :
    ∀ n cur, (patchRun ops tbl n cur code).1.length = code.length := by
  induction code with
  | nil => intro n cur; rfl
  | cons i rest ih =>
    intro n cur
    cases hg : ops.local_goto_pos i with
    | none => rw [patchRun_cons_none_fst ops tbl n cur rest hg]; simp [ih]
    | some g =>
      cases hl : tbl[g]? with
      | none => rw [patchRun_cons_miss_fst ops tbl n cur rest hg hl]
      | some pos => rw [patchRun_cons_hit_fst ops tbl n cur rest hg hl]; simp [ih]

/-- The patching pass succeeds exactly when every stored goto index has an
entry in the routine table. -/
theorem patchRun_none_iff (ops : IsaOps I) (tbl : List Nat) (code : List I) :
    ∀ cur, ((patchRun ops tbl 0 cur code).2 = none ↔
      ∀ i ∈ code, ∀ g, ops.local_goto_pos i = some g → g < tbl.length) := by
  induction code with
  | nil => intro cur; simp [patchRun]
  | cons i rest ih =>
    intro cur
    cases hg : ops.local_goto_pos i with
    | none =>
      rw [patchRun_cons_none_snd ops tbl 0 cur rest hg, patchRun_snd_shift,
        Option.map_eq_none', ih]
      constructor
      · intro hres j hj g hgj
        rcases List.mem_cons.mp hj with rfl | hj
        · rw [hg] at hgj; cases hgj
        · exact hres j hj g hgj
      · intro hall j hj g hgj
        exact hall j (List.mem_cons_of_mem i hj) g hgj
    | some g =>
      cases hl : tbl[g]? with
      | none =>
        rw [patchRun_cons_miss_snd ops tbl 0 cur rest hg hl]
        have hlen := List.getElem?_eq_none_iff.mp hl
        simp only [reduceCtorEq, false_iff, not_forall]
        exact ⟨i, List.mem_cons_self i rest, g, hg, by omega⟩
      | some pos =>
        rw [patchRun_cons_hit_snd ops tbl 0 cur rest hg hl, patchRun_snd_shift,
          Option.map_eq_none', ih]
        constructor
        · intro hres j hj g' hgj
          rcases List.mem_cons.mp hj with rfl | hj
          · rw [hg] at hgj
            cases hgj
            exact lt_length_of_getElem?_eq_some hl
          · exact hres j hj g' hgj
        · intro hall j hj g' hgj
          exact hall j (List.mem_cons_of_mem i hj) g' hgj

/-- Every instruction of the patched buffer is either the original instruction
or the original with its goto field overwritten by a table entry. -/
theorem patchRun_get_shape (ops : IsaOps I) (tbl : List Nat) (code : List I) :
    ∀ cur (k : Nat) i, code[k]? = some i →
      ((patchRun ops tbl 0 cur code).1)[k]? = some i ∨
      ∃ g pos, ops.local_goto_pos i = some g ∧ tbl[g]? = some pos ∧
        ((patchRun ops tbl 0 cur code).1)[k]? = some (ops.set_goto i pos) := by
  induction code with
  | nil => intro cur k i hk; simp at hk
  | cons j rest ih =>
    intro cur k i hk
    cases hg : ops.local_goto_pos j with
    | none =>
      rw [patchRun_cons_none_fst ops tbl 0 cur rest hg, patchRun_fst_shift]
      cases k with
      | zero =>
        rw [List.getElem?_cons_zero] at hk
        cases hk
        left
        exact List.getElem?_cons_zero
      | succ k =>
        rw [List.getElem?_cons_succ] at hk
        rw [List.getElem?_cons_succ]
        exact ih _ k i hk
    | some g =>
      cases hl : tbl[g]? with
      | none =>
        rw [patchRun_cons_miss_fst ops tbl 0 cur rest hg hl]
        left
        exact hk
      | some pos =>
        rw [patchRun_cons_hit_fst ops tbl 0 cur rest hg hl, patchRun_fst_shift]
        cases k with
        | zero =>
          rw [List.getElem?_cons_zero] at hk
          cases hk
          right
          exact ⟨g, pos, hg, hl, List.getElem?_cons_zero⟩
        | succ k =>
          rw [List.getElem?_cons_succ] at hk
          rw [List.getElem?_cons_succ]
          exact ih _ k i hk

/-- On success every goto-free instruction is returned unchanged and every
goto-carrying instruction has its goto field overwritten with the table entry
for the stored index. -/
theorem patchRun_ok_get (ops : IsaOps I) (tbl : List Nat) (code : List I) :
    ∀ cur, (patchRun ops tbl 0 cur code).2 = none →
    ∀ (k : Nat) i, code[k]? = some i →
      (ops.local_goto_pos i = none →
        ((patchRun ops tbl 0 cur code).1)[k]? = some i) ∧
      (∀ g, ops.local_goto_pos i = some g → ∃ pos, tbl[g]? = some pos ∧
        ((patchRun ops tbl 0 cur code).1)[k]? = some (ops.set_goto i pos)) := by
  induction code with
  | nil => intro cur h k i hk; simp at hk
  | cons j rest ih =>
    intro cur h k i hk
    cases hg : ops.local_goto_pos j with
    | none =>
      rw [patchRun_cons_none_snd ops tbl 0 cur rest hg, patchRun_snd_shift,
        Option.map_eq_none'] at h
      rw [patchRun_cons_none_fst ops tbl 0 cur rest hg, patchRun_fst_shift]
      cases k with
      | zero =>
        rw [List.getElem?_cons_zero] at hk
        cases hk
        refine ⟨fun _ => List.getElem?_cons_zero, fun g hgj => ?_⟩
        rw [hg] at hgj
        cases hgj
      | succ k =>
        rw [List.getElem?_cons_succ] at hk
        simp only [List.getElem?_cons_succ]
        exact ih _ h k i hk
    | some g =>
      cases hl : tbl[g]? with
      | none =>
        rw [patchRun_cons_miss_snd ops tbl 0 cur rest hg hl] at h
        cases h
      | some pos =>
        rw [patchRun_cons_hit_snd ops tbl 0 cur rest hg hl, patchRun_snd_shift,
          Option.map_eq_none'] at h
        rw [patchRun_cons_hit_fst ops tbl 0 cur rest hg hl, patchRun_fst_shift]
        cases k with
        | zero =>
          rw [List.getElem?_cons_zero] at hk
          cases hk
          refine ⟨fun hn => ?_, fun g' hgj => ?_⟩
          · rw [hg] at hn; cases hn
          · rw [hg] at hgj
            cases hgj
            exact ⟨pos, hl, List.getElem?_cons_zero⟩
        | succ k =>
          rw [List.getElem?_cons_succ] at hk
          simp only [List.getElem?_cons_succ]
          exact ih _ h k i hk

/-- Full characterisation of a patching failure: the error carries the
routine table it was given, a copy of the instruction found at the reported
position, that instruction stores an index with no table entry, the reported
offset is the second-pass cursor accumulated over the patched prefix, every
instruction from the reported position onwards is unchanged in the buffer,
every earlier instruction is patched like on success, and every goto index in
the prefix resolves. -/
theorem patchRun_error_spec (ops : IsaOps I) (tbl : List Nat) (code : List I) :
    ∀ cur e, (patchRun ops tbl 0 cur code).2 = some e →
      e.known = tbl ∧
      code[e.no]? = some e.instr ∧
      (∃ g, ops.local_goto_pos e.instr = some g ∧ tbl.length ≤ g) ∧
      e.offset = patchOffset ops tbl cur (code.take e.no) ∧
      (∀ k, e.no ≤ k → ((patchRun ops tbl 0 cur code).1)[k]? = code[k]?) ∧
      (∀ (k : Nat) i, k < e.no → code[k]? = some i →
        (ops.local_goto_pos i = none →
          ((patchRun ops tbl 0 cur code).1)[k]? = some i) ∧
        (∀ g, ops.local_goto_pos i = some g → ∃ pos, tbl[g]? = some pos ∧
          ((patchRun ops tbl 0 cur code).1)[k]? = some (ops.set_goto i pos))) ∧
      (∀ i ∈ code.take e.no, ∀ g, ops.local_goto_pos i = some g →
        g < tbl.length) := by
  induction code with
  | nil => intro cur e h; simp [patchRun] at h
  | cons j rest ih =>
    intro cur e h
    cases hg : ops.local_goto_pos j with
    | none =>
      rw [patchRun_cons_none_snd ops tbl 0 cur rest hg, patchRun_snd_shift,
        Option.map_eq_some'] at h
      obtain ⟨e0, h0, rfl⟩ := h
      obtain ⟨ht, hat, hbad, hoff, hframe, hpre, hres⟩ := ih _ e0 h0
      have hno : (shiftRef 1 e0).no = e0.no + 1 := by
        simp [shiftRef, Nat.add_comm]
      have hinstr : (shiftRef 1 e0).instr = e0.instr := rfl
      have hofs : (shiftRef 1 e0).offset = e0.offset := rfl
      have hknown : (shiftRef 1 e0).known = e0.known := rfl
      rw [patchRun_cons_none_fst ops tbl 0 cur rest hg, patchRun_fst_shift]
      rw [hno, hinstr, hofs, hknown]
      refine ⟨ht, ?_, hbad, ?_, ?_, ?_, ?_⟩
      · rw [List.getElem?_cons_succ]
        exact hat
      · rw [List.take_succ_cons]
        simp only [patchOffset, hg]
        exact hoff
      · intro k hk
        cases k with
        | zero => omega
        | succ k =>
          rw [List.getElem?_cons_succ, List.getElem?_cons_succ]
          exact hframe k (by omega)
      · intro k i hk hki
        cases k with
        | zero =>
          rw [List.getElem?_cons_zero] at hki
          cases hki
          refine ⟨fun _ => List.getElem?_cons_zero, fun g hgj => ?_⟩
          rw [hg] at hgj
          cases hgj
        | succ k =>
          rw [List.getElem?_cons_succ] at hki
          simp only [List.getElem?_cons_succ]
          exact hpre k i (by omega) hki
      · rw [List.take_succ_cons]
        intro i hi g hgi
        rcases List.mem_cons.mp hi with rfl | hi
        · rw [hg] at hgi; cases hgi
        · exact hres i hi g hgi
    | some g =>
      cases hl : tbl[g]? with
      | none =>
        rw [patchRun_cons_miss_snd ops tbl 0 cur rest hg hl] at h
        cases h
        rw [patchRun_cons_miss_fst ops tbl 0 cur rest hg hl]
        refine ⟨rfl, List.getElem?_cons_zero, ⟨g, hg,
          List.getElem?_eq_none_iff.mp hl⟩, rfl, fun k _ => rfl,
          fun k i hk _ => (Nat.not_lt_zero k hk).elim,
          fun i hi => by simp at hi⟩
      | some pos =>
        rw [patchRun_cons_hit_snd ops tbl 0 cur rest hg hl, patchRun_snd_shift,
          Option.map_eq_some'] at h
        obtain ⟨e0, h0, rfl⟩ := h
        obtain ⟨ht, hat, hbad, hoff, hframe, hpre, hres⟩ := ih _ e0 h0
        have hno : (shiftRef 1 e0).no = e0.no + 1 := by
          simp [shiftRef, Nat.add_comm]
        have hinstr : (shiftRef 1 e0).instr = e0.instr := rfl
        have hofs : (shiftRef 1 e0).offset = e0.offset := rfl
        have hknown : (shiftRef 1 e0).known = e0.known := rfl
        rw [patchRun_cons_hit_fst ops tbl 0 cur rest hg hl, patchRun_fst_shift]
        rw [hno, hinstr, hofs, hknown]
        refine ⟨ht, ?_, hbad, ?_, ?_, ?_, ?_⟩
        · rw [List.getElem?_cons_succ]
          exact hat
        · rw [List.take_succ_cons]
          simp only [patchOffset, hg, hl]
          exact hoff
        · intro k hk
          cases k with
          | zero => omega
          | succ k =>
            rw [List.getElem?_cons_succ, List.getElem?_cons_succ]
            exact hframe k (by omega)
        · intro k i hk hki
          cases k with
          | zero =>
            rw [List.getElem?_cons_zero] at hki
            cases hki
            refine ⟨fun hn => ?_, fun g' hgj => ?_⟩
            · rw [hg] at hn; cases hn
            · rw [hg] at hgj
              cases hgj
              exact ⟨pos, hl, List.getElem?_cons_zero⟩
          | succ k =>
            rw [List.getElem?_cons_succ] at hki
            simp only [List.getElem?_cons_succ]
            exact hpre k i (by omega) hki
        · rw [List.take_succ_cons]
          intro i hi g' hgi
          rcases List.mem_cons.mp hi with rfl | hi
          · rw [hg] at hgi
            cases hgi
            exact lt_length_of_getElem?_eq_some hl
          · exact hres i hi g' hgi

/-- There is no unresolvable goto index exactly when every stored index has a
table entry. -/
theorem firstBad_none_iff (ops : IsaOps I) (tbl : List Nat) (code : List I) :
    firstBad ops tbl code = none ↔
      ∀ i ∈ code, ∀ g, ops.local_goto_pos i = some g → g < tbl.length := by
  induction code with
  | nil => simp [firstBad]
  | cons i rest ih =>
    cases hg : ops.local_goto_pos i with
    | none =>
      simp only [firstBad, hg, Option.map_eq_none', ih]
      constructor
      · intro hres j hj g hgj
        rcases List.mem_cons.mp hj with rfl | hj
        · rw [hg] at hgj; cases hgj
        · exact hres j hj g hgj
      · intro hall j hj g hgj
        exact hall j (List.mem_cons_of_mem i hj) g hgj
    | some g =>
      by_cases hge : tbl.length ≤ g
      · simp only [firstBad, hg, if_pos hge, reduceCtorEq, false_iff,
          not_forall]
        exact ⟨i, List.mem_cons_self i rest, g, hg, by omega⟩
      · simp only [firstBad, hg, if_neg hge, Option.map_eq_none', ih]
        constructor
        · intro hres j hj g' hgj
          rcases List.mem_cons.mp hj with rfl | hj
          · rw [hg] at hgj
            cases hgj
            omega
          · exact hres j hj g' hgj
        · intro hall j hj g' hgj
          exact hall j (List.mem_cons_of_mem i hj) g' hgj

/-- The position returned by firstBad carries an unresolvable goto index and
every earlier instruction resolves. -/
theorem firstBad_some_spec (ops : IsaOps I) (tbl : List Nat) (code : List I) :
    ∀ p, firstBad ops tbl code = some p →
      (∃ j g, code[p]? = some j ∧ ops.local_goto_pos j = some g ∧
        tbl.length ≤ g) ∧
      (∀ (k : Nat) i, k < p → code[k]? = some i →
        ∀ g, ops.local_goto_pos i = some g → g < tbl.length) := by
  induction code with
  | nil => intro p h; simp [firstBad] at h
  | cons i rest ih =>
    intro p h
    cases hg : ops.local_goto_pos i with
    | none =>
      simp only [firstBad, hg, Option.map_eq_some'] at h
      obtain ⟨q, hq, rfl⟩ := h
      obtain ⟨hex, hpre⟩ := ih q hq
      refine ⟨?_, ?_⟩
      · obtain ⟨j, g, hj, hgj, hge⟩ := hex
        exact ⟨j, g, by rw [List.getElem?_cons_succ]; exact hj, hgj, hge⟩
      · intro k i' hk hki g hgi
        cases k with
        | zero =>
          rw [List.getElem?_cons_zero] at hki
          cases hki
          rw [hg] at hgi
          cases hgi
        | succ k =>
          rw [List.getElem?_cons_succ] at hki
          exact hpre k i' (by omega) hki g hgi
    | some g =>
      by_cases hge : tbl.length ≤ g
      · simp only [firstBad, hg, if_pos hge, Option.some.injEq] at h
        cases h
        refine ⟨⟨i, g, List.getElem?_cons_zero, hg, hge⟩, ?_⟩
        intro k i' hk
        exact (Nat.not_lt_zero k hk).elim
      · simp only [firstBad, hg, if_neg hge, Option.map_eq_some'] at h
        obtain ⟨q, hq, rfl⟩ := h
        obtain ⟨hex, hpre⟩ := ih q hq
        refine ⟨?_, ?_⟩
        · obtain ⟨j, g', hj, hgj, hge'⟩ := hex
          exact ⟨j, g', by rw [List.getElem?_cons_succ]; exact hj, hgj, hge'⟩
        · intro k i' hk hki g' hgi
          cases k with
          | zero =>
            rw [List.getElem?_cons_zero] at hki
            cases hki
            rw [hg] at hgi
            cases hgi
            omega
          | succ k =>
            rw [List.getElem?_cons_succ] at hki
            exact hpre k i' (by omega) hki g' hgi

/-- A patching failure makes compile return the corresponding InvalidRef
error, whatever the assembler does. -/
theorem compile_eq_error_of_patch {Id : Type} (ops : IsaOps I)
    (a : List I → Except E L) (lid : L → Id) (code : List I) (e : RefError I)
    (h : (patchResult ops code).2 = some e) :
    compile ops a lid code = .error (.InvalidRef e.instr e.no e.offset e.known) := by
  simp [compile, h]

/-- When patching succeeds, compile never returns an InvalidRef error. -/
theorem compile_no_invalidref_of_patch_ok {Id : Type} (ops : IsaOps I)
    (a : List I → Except E L) (lid : L → Id) (code : List I)
    (h : (patchResult ops code).2 = none) :
    ∀ (j : I) (p off : Nat) (t : List Nat),
      compile ops a lid code ≠ .error (.InvalidRef j p off t) := by
  intro j p off t hc
  simp only [compile, h] at hc
  cases ha : a (patchResult ops code).1 with
  | error err =>
    rw [ha] at hc
    injection hc with h2
    cases h2
  | ok lib =>
    rw [ha] at hc
    cases hc

/-- A successful compile implies a successful patch and carries the scan
table as its routine table. -/
theorem compile_ok_inv {Id : Type} (ops : IsaOps I) (a : List I → Except E L)
    (lid : L → Id) (code : List I) (u : CompiledLib L Id)
    (h : compile ops a lid code = .ok u) :
    (patchResult ops code).2 = none ∧ u.routines = scanFrom ops 0 code := by
  cases hp : (patchResult ops code).2 with
  | some e =>
    rw [compile_eq_error_of_patch ops a lid code e hp] at h
    cases h
  | none =>
    refine ⟨rfl, ?_⟩
    simp only [compile, hp] at h
    cases ha : a (patchResult ops code).1 with
    | error err => rw [ha] at h; cases h
    | ok lib =>
      rw [ha] at h
      cases h
      rfl

/-- An InvalidRef outcome of compile comes from the patching pass with
exactly the reported payload. -/
theorem compile_invalidref_inv {Id : Type} (ops : IsaOps I)
    (a : List I → Except E L) (lid : L → Id) (code : List I) (j : I)
    (p off : Nat) (t : List Nat)
    (h : compile ops a lid code = .error (.InvalidRef j p off t)) :
    (patchResult ops code).2 = some ⟨j, p, off, t⟩ := by
  cases hp : (patchResult ops code).2 with
  | none =>
    exact absurd h (compile_no_invalidref_of_patch_ok ops a lid code hp j p off t)
  | some e =>
    rw [compile_eq_error_of_patch ops a lid code e hp] at h
    injection h with h2
    injection h2 with h3 h4 h5 h6
    cases e
    subst h3 h4 h5 h6
    rfl

/-- When every goto index of the code resolves and rewriting a goto field
does not change an instruction's byte length, the second-pass cursor agrees
with the first-pass cursor. -/
theorem patchOffset_eq_scanOffset (ops : IsaOps I) (tbl : List Nat)
    (Hinv : ∀ i v, ops.code_byte_len (ops.set_goto i v) = ops.code_byte_len i)
    (code : List I) :
    ∀ cur, (∀ i ∈ code, ∀ g, ops.local_goto_pos i = some g → g < tbl.length) →
      patchOffset ops tbl cur code = scanOffset ops cur code := by
  induction code with
  | nil => intro cur _; rfl
  | cons i rest ih =>
    intro cur h
    cases hg : ops.local_goto_pos i with
    | none =>
      simp only [patchOffset, hg, scanOffset]
      exact ih _ (fun j hj => h j (List.mem_cons_of_mem i hj))
    | some g =>
      have hlt := h i (List.mem_cons_self i rest) g hg
      have hl : tbl[g]? = some tbl[g] := List.getElem?_eq_getElem hlt
      simp only [patchOffset, hg, hl, scanOffset, Hinv]
      exact ih _ (fun j hj => h j (List.mem_cons_of_mem i hj))

/-- On goto-free code the two cursors agree unconditionally. -/
theorem patchOffset_eq_scanOffset_of_no_goto (ops : IsaOps I) (tbl : List Nat)
    (code : List I) (h : ∀ i ∈ code, ops.local_goto_pos i = none) :
    ∀ cur, patchOffset ops tbl cur code = scanOffset ops cur code := by
  induction code with
  | nil => intro cur; rfl
  | cons i rest ih =>
    intro cur
    have hg := h i (List.mem_cons_self i rest)
    simp only [patchOffset, hg, scanOffset]
    exact ih (fun j hj => h j (List.mem_cons_of_mem i hj)) _

theorem mem_take_of_getElem? {α : Type} {l : List α} {m n : Nat} {a : α}
    (hm : m < n) (h : l[m]? = some a) : a ∈ l.take n := by
  refine List.getElem?_mem (n := m) ?_
  rw [List.getElem?_take]
  simp [hm, h]

/-! ### Claims -/

/-- C1, counterexample to the claim as stated: in cOverflow the 0th (and
only) entry-point instruction sits at sequence position 2, but the Routine
Table's 0th entry is the wrapped 16-bit cursor 14464 and not the sum 80000 of
code_byte_len over instructions [0..2). -/
theorem c1_counterexample :
    (entryPositions tOps cOverflow)[0]? = some 2 ∧
    sumLen tOps (cOverflow.take 2) = 80000 ∧
    (scanFrom tOps 0 cOverflow)[0]? = some 14464 ∧
    (scanFrom tOps 0 cOverflow)[0]? ≠ some (sumLen tOps (cOverflow.take 2)) := by
  decide

/-- C1 (amended with the overflow bound the counterexample forces): for every
instruction sequence whose total code size fits the 16-bit address space, the
Routine Table has one entry per entry-point instruction, and the k-th entry
equals the sum of code_byte_len over the instructions before the position of
the k-th entry-point instruction. -/
theorem c1_routine_table (ops : IsaOps I) (code : List I)
    (hfit : sumLen ops code < u16Mod) :
    (scanFrom ops 0 code).length =
      code.countP (fun i => ops.is_local_goto_target i) ∧
    ∀ (k p : Nat), (entryPositions ops code)[k]? = some p →
      (scanFrom ops 0 code)[k]? = some (sumLen ops (code.take p)) := by
  refine ⟨scanFrom_length ops 0 code, fun k p hk => ?_⟩
  rw [scan_entry ops code 0 k p hk,
    scanOffset_exact ops (code.take p) 0
      (by have := sumLen_take_le ops code p; omega)]
  simp

theorem c1_routine_table_witness :
    (scanFrom tOps 0 cGood).length =
      cGood.countP (fun i => tOps.is_local_goto_target i) ∧
    (scanFrom tOps 0 cGood)[0]? = some (sumLen tOps (cGood.take 0)) :=
  ⟨(c1_routine_table tOps cGood (by decide)).1,
   (c1_routine_table tOps cGood (by decide)).2 0 0 (by decide)⟩

/-- C2: if compile succeeds and the instruction at position p stores goto
index g with g below the Routine Table length, the patched buffer holds that
instruction with its goto field overwritten by exactly the table's g-th
entry. -/
theorem c2_goto_patched {L Id E : Type} (a : List TIsa → Except E L)
    (lid : L → Id) (code : List TIsa) (u : CompiledLib L Id)
    (hc : compile tOps a lid code = .ok u)
    (p g : Nat) (i : TIsa) (hp : code[p]? = some i) (hg : i.goto = some g)
    (hlt : g < u.routines.length) :
    ∃ pos, u.routines[g]? = some pos ∧
      ((patchResult tOps code).1)[p]? = some { i with goto := some pos } := by
  obtain ⟨hpatch, hr⟩ := compile_ok_inv tOps a lid code u hc
  have h2 := (patchRun_ok_get tOps (scanFrom tOps 0 code) code 0 hpatch
    p i hp).2 g hg
  obtain ⟨pos, hl, hout⟩ := h2
  refine ⟨pos, ?_, hout⟩
  rw [hr]
  exact hl

theorem c2_goto_patched_witness :
    ∃ pos, uGood.routines[0]? = some pos ∧
      ((patchResult tOps cGood).1)[1]? =
        some { len := 3, entry := false, goto := some pos } :=
  c2_goto_patched asmOk lidLen cGood uGood (by rfl) 1 0 ⟨3, false, some 0⟩
    (by decide) (by decide) (by decide)

/-- C3: compile returns InvalidRef exactly when some instruction stores a
goto index with no Routine Table entry; at the first such position the error
carries a copy of that instruction, its position, the pre-patch cursor value,
and the full table produced by the scan of the whole sequence. -/
theorem c3_invalid_ref {L Id E : Type} (ops : IsaOps I)
    (a : List I → Except E L) (lid : L → Id) (code : List I) :
    ((∃ j p off t, compile ops a lid code = .error (.InvalidRef j p off t)) ↔
      ∃ i ∈ code, ∃ g, ops.local_goto_pos i = some g ∧
        (scanFrom ops 0 code).length ≤ g) ∧
    (∀ p, firstBad ops (scanFrom ops 0 code) code = some p →
      ∃ j, code[p]? = some j ∧
        compile ops a lid code = .error (.InvalidRef j p
          (patchOffset ops (scanFrom ops 0 code) 0 (code.take p))
          (scanFrom ops 0 code))) := by
  constructor
  · constructor
    · rintro ⟨j, p, off, t, h⟩
      have hp := compile_invalidref_inv ops a lid code j p off t h
      obtain ⟨_, hat, ⟨g, hgj, hge⟩, _, _, _, _⟩ :=
        patchRun_error_spec ops (scanFrom ops 0 code) code 0 _ hp
      exact ⟨j, List.getElem?_mem hat, g, hgj, hge⟩
    · rintro ⟨i, hi, g, hgi, hge⟩
      cases he : (patchResult ops code).2 with
      | none =>
        have := (patchRun_none_iff ops (scanFrom ops 0 code) code 0).mp he
          i hi g hgi
        omega
      | some e =>
        exact ⟨e.instr, e.no, e.offset, e.known,
          compile_eq_error_of_patch ops a lid code e he⟩
  · intro p hfb
    obtain ⟨⟨j, g, hj, hgj, hge⟩, hpre⟩ :=
      firstBad_some_spec ops (scanFrom ops 0 code) code p hfb
    cases he : (patchResult ops code).2 with
    | none =>
      have := (patchRun_none_iff ops (scanFrom ops 0 code) code 0).mp he
        j (List.getElem?_mem hj) g hgj
      omega
    | some e =>
      obtain ⟨hknown, hat, ⟨g', hgj', hge'⟩, hoff, _, _, hres⟩ :=
        patchRun_error_spec ops (scanFrom ops 0 code) code 0 e he
      have hpe : e.no = p := by
        rcases Nat.lt_trichotomy e.no p with hlt | heq | hgt
        · have := hpre e.no e.instr hlt hat g' hgj'
          omega
        · exact heq
        · have hmem : j ∈ code.take e.no := mem_take_of_getElem? hgt hj
          have := hres j hmem g hgj
          omega
      subst hpe
      rw [hj] at hat
      cases hat
      refine ⟨e.instr, hj, ?_⟩
      have hcomp := compile_eq_error_of_patch ops a lid code e he
      rw [hcomp, hknown, hoff]

theorem c3_invalid_ref_witness :
    ∃ j, cFail[0]? = some j ∧
      compile tOps asmOk lidLen cFail = .error (.InvalidRef j 0
        (patchOffset tOps (scanFrom tOps 0 cFail) 0 (cFail.take 0))
        (scanFrom tOps 0 cFail)) :=
  (c3_invalid_ref tOps asmOk lidLen cFail).2 0 (by decide)

/-- C4: on a successfully constructed compiled library, routine no returns
the pair of the library id and the no-th table entry whenever no is below
routines_count, and hits the out-of-bounds branch (modelled as none, the
Rust panic) whenever no is at least routines_count. -/
theorem c4_routine {L Id E : Type} (ops : IsaOps I) (a : List I → Except E L)
    (lid : L → Id) (code : List I) (u : CompiledLib L Id)
    (hc : compile ops a lid code = .ok u) :
    (∀ no, no < u.routines_count → ∃ pos, u.routines[no]? = some pos ∧
      u.routine no = some ⟨u.id, pos⟩) ∧
    (∀ no, u.routines_count ≤ no → u.routine no = none) := by
  refine ⟨fun no hno => ?_, fun no hno => ?_⟩
  · have hl : u.routines[no]? = some u.routines[no] :=
      List.getElem?_eq_getElem hno
    exact ⟨u.routines[no], hl, by simp [CompiledLib.routine, hl]⟩
  · simp [CompiledLib.routine, List.getElem?_eq_none hno]

theorem c4_routine_witness :
    (∃ pos, uGood.routines[0]? = some pos ∧
      uGood.routine 0 = some ⟨uGood.id, pos⟩) ∧
    uGood.routine 1 = none :=
  ⟨(c4_routine tOps asmOk lidLen cGood uGood (by rfl)).1 0 (by decide),
   (c4_routine tOps asmOk lidLen cGood uGood (by rfl)).2 1 (by decide)⟩

/-- C5: the code does not bound the total code size and silently wraps the
16-bit cursor. On cWrap, whose lengths sum to 80000 > 65535, the cursor of
both passes ends at 80000 mod 65536 = 14464, not at the exact sum the claim
requires. -/
theorem c5_cursor_wraps :
    sumLen tOps cWrap = 80000 ∧
    scanOffset tOps 0 cWrap = 14464 ∧
    patchOffset tOps [] 0 cWrap = 14464 ∧
    scanOffset tOps 0 cWrap ≠ sumLen tOps cWrap := by
  decide

/-- C6: patching rewrites only goto fields - byte length and entry-point
flag are untouched and goto-free instructions are returned verbatim - and on
an InvalidRef at position p the buffer keeps every instruction from p onwards
unchanged while goto-carrying instructions before p are already rewritten to
their table entries. -/
theorem c6_frame {L Id E : Type} (a : List TIsa → Except E L) (lid : L → Id)
    (code : List TIsa) :
    (∀ (k : Nat) i, code[k]? = some i → ∃ i2,
      ((patchResult tOps code).1)[k]? = some i2 ∧
      i2.len = i.len ∧ i2.entry = i.entry ∧ (i.goto = none → i2 = i)) ∧
    (∀ (j : TIsa) (p off : Nat) (t : List Nat),
      compile tOps a lid code = .error (.InvalidRef j p off t) →
      (∀ k, p ≤ k → ((patchResult tOps code).1)[k]? = code[k]?) ∧
      (∀ (k : Nat) i g, k < p → code[k]? = some i → i.goto = some g →
        ∃ pos, (scanFrom tOps 0 code)[g]? = some pos ∧
          ((patchResult tOps code).1)[k]? =
            some { i with goto := some pos })) := by
  constructor
  · intro k i hk
    rcases patchRun_get_shape tOps (scanFrom tOps 0 code) code 0 k i hk with
      hsame | ⟨g, pos, hg, hl, hout⟩
    · exact ⟨i, hsame, rfl, rfl, fun _ => rfl⟩
    · refine ⟨{ i with goto := some pos }, hout, rfl, rfl, fun hn => ?_⟩
      have : i.goto = some g := hg
      rw [hn] at this
      cases this
  · intro j p off t hc
    have hp := compile_invalidref_inv tOps a lid code j p off t hc
    obtain ⟨_, _, _, _, hframe, hpre, _⟩ :=
      patchRun_error_spec tOps (scanFrom tOps 0 code) code 0 _ hp
    refine ⟨hframe, fun k i g hk hki hgi => ?_⟩
    exact (hpre k i hk hki).2 g hgi

theorem c6_frame_witness :
    (∃ i2, ((patchResult tOps cErr).1)[0]? = some i2 ∧
      i2.len = 1 ∧ i2.entry = false ∧
      ((⟨1, false, none⟩ : TIsa).goto = none → i2 = ⟨1, false, none⟩)) ∧
    ((∀ k, 3 ≤ k → ((patchResult tOps cErr).1)[k]? = cErr[k]?) ∧
     (∀ (k : Nat) i g, k < 3 → cErr[k]? = some i → i.goto = some g →
        ∃ pos, (scanFrom tOps 0 cErr)[g]? = some pos ∧
          ((patchResult tOps cErr).1)[k]? =
            some { i with goto := some pos })) :=
  ⟨(c6_frame asmOk lidLen cErr).1 0 ⟨1, false, none⟩ (by decide),
   (c6_frame asmOk lidLen cErr).2 ⟨4, false, some 9⟩ 3 6 [1, 10] (by rfl)⟩

/-- C7: with no entry-point instructions the table is empty, so a goto-free
sequence compiles without InvalidRef and any successful unit reports zero
routines, while a goto-carrying instruction makes compilation fail with
InvalidRef citing the first such instruction, its position, its byte offset
and the empty known-target table. -/
theorem c7_no_entry_points {L Id E : Type} (ops : IsaOps I)
    (a : List I → Except E L) (lid : L → Id) (code : List I)
    (hT : ∀ i ∈ code, ops.is_local_goto_target i = false) :
    ((∀ i ∈ code, ops.local_goto_pos i = none) →
      (∀ (j : I) (p off : Nat) (t : List Nat),
        compile ops a lid code ≠ .error (.InvalidRef j p off t)) ∧
      (∀ u, compile ops a lid code = .ok u → u.routines_count = 0)) ∧
    (∀ p, firstBad ops [] code = some p → ∃ j, code[p]? = some j ∧
      compile ops a lid code =
        .error (.InvalidRef j p (scanOffset ops 0 (code.take p)) [])) := by
  have hscan : scanFrom ops 0 code = [] := scanFrom_eq_nil ops code hT 0
  constructor
  · intro hng
    have hok : (patchResult ops code).2 = none := by
      refine (patchRun_none_iff ops (scanFrom ops 0 code) code 0).mpr ?_
      intro i hi g hgi
      rw [hng i hi] at hgi
      cases hgi
    refine ⟨compile_no_invalidref_of_patch_ok ops a lid code hok,
      fun u hu => ?_⟩
    have hr := (compile_ok_inv ops a lid code u hu).2
    simp [CompiledLib.routines_count, hr, hscan]
  · intro p hfb
    obtain ⟨⟨j, g, hj, hgj, _⟩, _⟩ := firstBad_some_spec ops [] code p hfb
    cases he : (patchResult ops code).2 with
    | none =>
      have := (patchRun_none_iff ops (scanFrom ops 0 code) code 0).mp he
        j (List.getElem?_mem hj) g hgj
      rw [hscan] at this
      simp at this
    | some e =>
      obtain ⟨hknown, hat, ⟨g', hgj', hge'⟩, hoff, _, _, hres⟩ :=
        patchRun_error_spec ops (scanFrom ops 0 code) code 0 e he
      rw [hscan] at hres hknown hge'
      have hng : ∀ i ∈ code.take e.no, ops.local_goto_pos i = none := by
        intro i hi
        cases hgo : ops.local_goto_pos i with
        | none => rfl
        | some g2 =>
          have := hres i hi g2 hgo
          simp at this
      have hpe : e.no = p := by
        obtain ⟨_, hpre⟩ := firstBad_some_spec ops [] code p hfb
        rcases Nat.lt_trichotomy e.no p with hlt | heq | hgt
        · have := hpre e.no e.instr hlt hat g' hgj'
          omega
        · exact heq
        · have hmem : j ∈ code.take e.no := mem_take_of_getElem? hgt hj
          rw [hng j hmem] at hgj
          cases hgj
      subst hpe
      rw [hj] at hat
      cases hat
      refine ⟨e.instr, hj, ?_⟩
      have hcomp := compile_eq_error_of_patch ops a lid code e he
      rw [hcomp, hknown, hoff, hscan,
        patchOffset_eq_scanOffset_of_no_goto ops [] (code.take e.no) hng 0]

theorem c7_no_entry_points_witness :
    ((∀ (j : TIsa) (p off : Nat) (t : List Nat),
        compile tOps asmOk lidLen cPlain ≠ .error (.InvalidRef j p off t)) ∧
      (∀ u, compile tOps asmOk lidLen cPlain = .ok u →
        u.routines_count = 0)) ∧
    (∃ j, cFail[0]? = some j ∧
      compile tOps asmOk lidLen cFail =
        .error (.InvalidRef j 0 (scanOffset tOps 0 (cFail.take 0)) [])) :=
  ⟨(c7_no_entry_points tOps asmOk lidLen cPlain (by decide)).1 (by decide),
   (c7_no_entry_points tOps asmOk lidLen cFail (by decide)).2 0 (by decide)⟩

/-- C8: compilation is deterministic - compiling equal sequences with the
same (functional, hence deterministic) assembler yields compiled units with
identical routine tables and identical identifiers. -/
theorem c8_deterministic {L Id E : Type} (ops : IsaOps I)
    (a : List I → Except E L) (lid : L → Id) (code1 code2 : List I)
    (h : code1 = code2) (u1 u2 : CompiledLib L Id)
    (h1 : compile ops a lid code1 = .ok u1)
    (h2 : compile ops a lid code2 = .ok u2) :
    u1.routines = u2.routines ∧ u1.id = u2.id := by
  subst h
  rw [h1] at h2
  cases h2
  exact ⟨rfl, rfl⟩

theorem c8_deterministic_witness :
    uGood.routines = uGood.routines ∧ uGood.id = uGood.id :=
  c8_deterministic tOps asmOk lidLen cGood cGood rfl uGood uGood
    (by rfl) (by rfl)

/-- C9: an instruction that is both the k-th entry point (at position p) and
carries a goto field naming its own routine index k has its own cursor offset
recorded as the table's k-th entry, and the patching pass rewrites its goto
field to that same offset. -/
theorem c9_self_reference (code : List TIsa) (p k : Nat) (i : TIsa)
    (hp : code[p]? = some i) (hk : (entryPositions tOps code)[k]? = some p)
    (hg : i.goto = some k)
    (hok : (patchResult tOps code).2 = none) :
    (scanFrom tOps 0 code)[k]? = some (scanOffset tOps 0 (code.take p)) ∧
    ((patchResult tOps code).1)[p]? =
      some { i with goto := some (scanOffset tOps 0 (code.take p)) } := by
  have hsc := scan_entry tOps code 0 k p hk
  refine ⟨hsc, ?_⟩
  obtain ⟨pos, hl, hout⟩ :=
    (patchRun_ok_get tOps (scanFrom tOps 0 code) code 0 hok p i hp).2 k hg
  rw [hsc] at hl
  cases hl
  exact hout

theorem c9_self_reference_witness :
    (scanFrom tOps 0 cSelf)[0]? = some (scanOffset tOps 0 (cSelf.take 1)) ∧
    ((patchResult tOps cSelf).1)[1]? =
      some { len := 3, entry := true,
             goto := some (scanOffset tOps 0 (cSelf.take 1)) } :=
  c9_self_reference cSelf 1 0 ⟨3, true, some 0⟩ (by decide) (by decide)
    (by decide) (by decide)

/-- C10: when rewriting a goto field does not change an instruction's byte
length, the second-pass cursor agrees with the first-pass cursor on every
resolvable prefix, and the byte offset reported in any InvalidRef error
equals the offset the scanner assigns to the failing instruction. -/
theorem c10_cursor_invariance {L Id E : Type} (ops : IsaOps I)
    (a : List I → Except E L) (lid : L → Id) (code : List I)
    (Hinv : ∀ i v, ops.code_byte_len (ops.set_goto i v) = ops.code_byte_len i) :
    (∀ (k : Nat),
      (∀ i ∈ code.take k, ∀ g, ops.local_goto_pos i = some g →
        g < (scanFrom ops 0 code).length) →
      patchOffset ops (scanFrom ops 0 code) 0 (code.take k) =
        scanOffset ops 0 (code.take k)) ∧
    (∀ (j : I) (p off : Nat) (t : List Nat),
      compile ops a lid code = .error (.InvalidRef j p off t) →
      off = scanOffset ops 0 (code.take p)) := by
  refine ⟨fun k hres =>
    patchOffset_eq_scanOffset ops (scanFrom ops 0 code) Hinv (code.take k)
      0 hres, fun j p off t hc => ?_⟩
  have hp := compile_invalidref_inv ops a lid code j p off t hc
  obtain ⟨_, _, _, hoff, _, _, hres⟩ :=
    patchRun_error_spec ops (scanFrom ops 0 code) code 0 _ hp
  have hoff2 : off = patchOffset ops (scanFrom ops 0 code) 0 (code.take p) :=
    hoff
  have hres2 : ∀ i ∈ code.take p, ∀ g, ops.local_goto_pos i = some g →
      g < (scanFrom ops 0 code).length := hres
  rw [hoff2]
  exact patchOffset_eq_scanOffset ops (scanFrom ops 0 code) Hinv _ 0 hres2

theorem c10_cursor_invariance_witness :
    patchOffset tOps (scanFrom tOps 0 cErr) 0 (cErr.take 3) =
      scanOffset tOps 0 (cErr.take 3) ∧
    (6 : Nat) = scanOffset tOps 0 (cErr.take 3) :=
  ⟨(c10_cursor_invariance tOps asmOk lidLen cErr (fun i v => rfl)).1 3
      (by decide),
   (c10_cursor_invariance tOps asmOk lidLen cErr (fun i v => rfl)).2
      ⟨4, false, some 9⟩ 3 6 [1, 10] (by rfl)⟩

end Aluvm
